import Mathlib

/-!
Verification of the EL-embedding training program (`elembedding.py`).

The development shallowly embeds the program's three algorithmic parts:

* the geometric loss model (`ELModel`): per-row penalty functions over
  real vectors; an embedding row of a class is a function `Fin (n+1) → ℝ`
  (center coordinates followed by a signed radius coordinate), a relation
  embedding is a function `Fin n → ℝ`;
* the line-oriented parser `load_data`: strings are modelled as `List Char`
  so that every operation is kernel-computable, and Python `IndexError`
  becomes an `Except` error;
* the batch sampler `Generator`: randomness is modelled by an explicit
  seed oracle, `np.random.choice(0, k)`'s `ValueError` and `StopIteration`
  become an `Except` error and an `Option.none` respectively.
-/

namespace ELEmbed

/-- Rectified linear unit, the model of `tf.nn.relu` on one scalar. -/
noncomputable def relu (x : ℝ) : ℝ := max x 0

/-- Euclidean norm of one row, the model of `tf.norm(·, axis=1)`. -/
noncomputable def enorm {n : ℕ} (x : Fin n → ℝ) : ℝ :=
  Real.sqrt (∑ i, x i ^ 2)

/-- Center coordinates `v[:, 0:-1]` of one class-embedding row. -/
def center {n : ℕ} (v : Fin (n + 1) → ℝ) : Fin n → ℝ :=
  fun i => v i.castSucc

/-- Radius coordinate `v[:, -1]` of one class-embedding row. -/
def radius {n : ℕ} (v : Fin (n + 1) → ℝ) : ℝ :=
  v (Fin.last n)

/-- A relation vector padded with one trailing zero, the model of
`tf.concat([r, tf.zeros((r.shape[0], 1))], 1)` in `nf3_loss`/`nf4_loss`. -/
def padRel {n : ℕ} (r : Fin n → ℝ) : Fin (n + 1) → ℝ :=
  Fin.snoc r 0

namespace ELModel

/-- Core distance term of `ELModel.loss`: the value
`tf.nn.relu(euc + rc - rd)` of one row (variable `dst` in the source). -/
noncomputable def dstTerm {n : ℕ} (c d : Fin (n + 1) → ℝ) : ℝ :=
  relu (enorm (center c - center d) + |radius c| - |radius d|)

/-- Regularization term of `ELModel.loss`:
`tf.abs(tf.norm(c) - 1) + tf.abs(tf.norm(d) - 1)` on the two centers
(variable `reg` in the source). -/
noncomputable def regTerm {n : ℕ} (c d : Fin (n + 1) → ℝ) : ℝ :=
  |enorm (center c) - 1| + |enorm (center d) - 1|

/-- The containment primitive `ELModel.loss` of one row: `dst + reg`. -/
noncomputable def loss {n : ℕ} (c d : Fin (n + 1) → ℝ) : ℝ :=
  dstTerm c d + regTerm c d

/-- Per-row `ELModel.nf1_loss` on the two gathered class embeddings. -/
noncomputable def nf1_loss {n : ℕ} (c d : Fin (n + 1) → ℝ) : ℝ :=
  loss c d

/-- Per-row `ELModel.nf2_loss` on the three gathered class embeddings.
Faithful to the source: the variable `re` is computed from `d[:, -1]`
(line `re = tf.reshape(tf.math.abs(d[:, -1]), [-1, 1])`), not from
`e[:, -1]`. -/
noncomputable def nf2_loss {n : ℕ} (c d e : Fin (n + 1) → ℝ) : ℝ :=
  let rc := |radius c|
  let rd := |radius d|
  let re := |radius d|
  let sr := rc + rd
  let x1 := center c
  let x2 := center d
  let x3 := center e
  let dst := enorm (x2 - x1)
  let dst2 := enorm (x3 - x1)
  let dst3 := enorm (x3 - x2)
  let rdst := relu (max rc rd - re)
  let dst_loss := relu (dst - sr) + relu (dst2 - rc) + relu (dst3 - rd) + rdst
  let reg := |enorm x1 - 1| + |enorm x2 - 1| + |enorm x3 - 1|
  dst_loss + reg

/-- The NF2 row penalty as the specification words it: identical to
`nf2_loss` except that the containment-consistency slack `re` is the
absolute radius of `e`, not of `d`. Stated only to be compared with the
source's `nf2_loss`. -/
noncomputable def nf2_loss_specWords {n : ℕ} (c d e : Fin (n + 1) → ℝ) : ℝ :=
  let rc := |radius c|
  let rd := |radius d|
  let re := |radius e|
  let sr := rc + rd
  let x1 := center c
  let x2 := center d
  let x3 := center e
  let dst := enorm (x2 - x1)
  let dst2 := enorm (x3 - x1)
  let dst3 := enorm (x3 - x2)
  let rdst := relu (max rc rd - re)
  let dst_loss := relu (dst - sr) + relu (dst2 - rc) + relu (dst3 - rd) + rdst
  let reg := |enorm x1 - 1| + |enorm x2 - 1| + |enorm x3 - 1|
  dst_loss + reg

/-- Per-row `ELModel.nf3_loss`: shift `c` by the zero-padded relation
vector, then the containment primitive. -/
noncomputable def nf3_loss {n : ℕ} (c : Fin (n + 1) → ℝ) (r : Fin n → ℝ)
    (d : Fin (n + 1) → ℝ) : ℝ :=
  loss (c + padRel r) d

/-- Per-row `ELModel.nf4_loss`: shift `c` by the negated zero-padded
relation vector, then `relu(dst - sr)` plus the center regularization,
exactly as in the source (no second containment direction). -/
noncomputable def nf4_loss {n : ℕ} (r : Fin n → ℝ) (c d : Fin (n + 1) → ℝ) : ℝ :=
  let c' := c - padRel r
  let rc := |radius c'|
  let rd := |radius d|
  let sr := rc + rd
  let x1 := center c'
  let x2 := center d
  let dst := enorm (x2 - x1)
  let dst_loss := relu (dst - sr)
  let reg := |enorm x1 - 1| + |enorm x2 - 1|
  dst_loss + reg

/-- The NF4 row penalty as the specification words it: translate C's
center by the negative of R's vector, then
`relu(dist(shifted_c, d) − (r_shifted_c + rd))` plus unit-norm
regularization on shifted-C's and D's centers. -/
noncomputable def nf4_loss_specWords {n : ℕ} (r : Fin n → ℝ)
    (c d : Fin (n + 1) → ℝ) : ℝ :=
  let c' := c - padRel r
  relu (enorm (center c' - center d) - (|radius c'| + |radius d|))
    + (|enorm (center c') - 1| + |enorm (center d) - 1|)

/-- The fixed margin of `ELModel.dis_loss` (Python default `margin=0.1`,
never overridden by a caller). -/
noncomputable def disMargin : ℝ := 1 / 10

/-- Overlap penalty term of `ELModel.dis_loss` on one row:
`tf.nn.relu(sr - dst - margin)`. -/
noncomputable def disPenalty {n : ℕ} (c d : Fin (n + 1) → ℝ) : ℝ :=
  relu (|radius c| + |radius d| - enorm (center d - center c) - disMargin)

/-- Per-row `ELModel.dis_loss`: overlap penalty plus center
regularization. -/
noncomputable def dis_loss {n : ℕ} (c d : Fin (n + 1) → ℝ) : ℝ :=
  disPenalty c d + (|enorm (center c) - 1| + |enorm (center d) - 1|)

/-- Row-level `ELModel.dis_loss` on a disjointness triple of indices:
the source gathers only `input[:, 0]` and `input[:, 1]` through the class
embedding table. -/
noncomputable def dis_loss_row {n : ℕ} (emb : ℕ → Fin (n + 1) → ℝ)
    (row : ℕ × ℕ × ℕ) : ℝ :=
  dis_loss (emb row.1) (emb row.2.1)

/-- Batch-level `ELModel.dis_loss`: one scalar per batch row. -/
noncomputable def dis_loss_batch {n : ℕ} (emb : ℕ → Fin (n + 1) → ℝ)
    (batch : List (ℕ × ℕ × ℕ)) : List ℝ :=
  batch.map (dis_loss_row emb)

end ELModel

/-! The parser `load_data`. Python strings are modelled as `List Char`
so that every operation reduces in the kernel. -/

/-- A Python string. -/
abbrev Str := List Char

/-- Python `str.strip()`: drop whitespace from both ends. -/
def pyStrip (l : Str) : Str :=
  ((l.dropWhile Char.isWhitespace).reverse.dropWhile Char.isWhitespace).reverse

/-- Python `str.split(' ')`: split on every single space, keeping empty
pieces. -/
def splitSp : Str → List Str
  | [] => [[]]
  | ch :: cs =>
    if ch = ' ' then [] :: splitSp cs
    else
      match splitSp cs with
      | [] => [[ch]]
      | p :: ps => (ch :: p) :: ps

/-- The literal `'ObjectIntersectionOf('` (21 characters). -/
def interTag : Str := "ObjectIntersectionOf(".toList

/-- The literal `'ObjectSomeValuesFrom('` (21 characters). -/
def someTag : Str := "ObjectSomeValuesFrom(".toList

/-- The literal `'ObjectSomeValuesFrom'` used in the `line.find` test. -/
def someWord : Str := "ObjectSomeValuesFrom".toList

/-- Python `line.find(pat) != -1`: some suffix of `l` starts with
`pat`. -/
def hasSub (pat l : Str) : Bool :=
  l.tails.any (fun s => pat.isPrefixOf s)

/-- The bottom-concept identifier `'owl:Nothing'`. -/
def bottom : Str := "owl:Nothing".toList

/-- The incremental name-to-index map: a list of names in first-seen
order, the index of a name being its position. `addCls cs nm` models
`if nm not in map: map[nm] = len(map)`. -/
def addCls (cs : List Str) (nm : Str) : List Str :=
  if nm ∈ cs then cs else cs ++ [nm]

/-- Lookup `map[nm]`: the stored index of `nm`, which is its position in
the first-seen list. -/
def idx (cs : List Str) (nm : Str) : ℕ :=
  match cs with
  | [] => 0
  | c :: rest => if c = nm then 0 else idx rest nm + 1

/-- The parser state: the two name maps and the five axiom groups of
`load_data`. -/
structure ParseState where
  classes : List Str
  relations : List Str
  nf1 : List (ℕ × ℕ)
  nf2 : List (ℕ × ℕ × ℕ)
  nf3 : List (ℕ × ℕ × ℕ)
  nf4 : List (ℕ × ℕ × ℕ)
  disjoint : List (ℕ × ℕ × ℕ)
deriving DecidableEq, Repr

/-- The empty state `load_data` starts from. -/
def initState : ParseState := ⟨[], [], [], [], [], [], []⟩

/-- One iteration of the parsing loop of `load_data`. The line is
stripped and sliced `[11:-1]`; an empty result is skipped; the four
branches follow the source's `startswith`/`find` tests in order. A
Python `IndexError` on a token access becomes an `Except.error` carrying
the raw line. -/
def parseLine (st : ParseState) (raw : Str) : Except Str ParseState :=
  let line := ((pyStrip raw).drop 11).dropLast
  if line.isEmpty then .ok st
  else if interTag.isPrefixOf line then
    -- C and D SubClassOf E
    let it := splitSp line
    match it[0]?, it[1]?, it[2]? with
    | some i0, some i1, some i2 =>
      let c := i0.drop 21
      let d := i1.dropLast
      let e := i2
      let cls := addCls (addCls (addCls st.classes c) d) e
      if e = bottom then
        .ok { st with classes := cls,
                      disjoint := st.disjoint ++ [(idx cls c, idx cls d, idx cls e)] }
      else
        .ok { st with classes := cls,
                      nf2 := st.nf2 ++ [(idx cls c, idx cls d, idx cls e)] }
    | _, _, _ => .error raw
  else if someTag.isPrefixOf line then
    -- R some C SubClassOf D
    let it := splitSp line
    match it[0]?, it[1]?, it[2]? with
    | some i0, some i1, some i2 =>
      let r := i0.drop 21
      let c := i1.dropLast
      let d := i2
      let cls := addCls (addCls st.classes c) d
      let rel := addCls st.relations r
      .ok { st with classes := cls, relations := rel,
                    nf4 := st.nf4 ++ [(idx rel r, idx cls c, idx cls d)] }
    | _, _, _ => .error raw
  else if hasSub someWord line then
    -- C SubClassOf R some D
    let it := splitSp line
    match it[0]?, it[1]?, it[2]? with
    | some i0, some i1, some i2 =>
      let c := i0
      let r := i1.drop 21
      let d := i2.dropLast
      let cls := addCls (addCls st.classes c) d
      let rel := addCls st.relations r
      .ok { st with classes := cls, relations := rel,
                    nf3 := st.nf3 ++ [(idx cls c, idx rel r, idx cls d)] }
    | _, _, _ => .error raw
  else
    -- C SubClassOf D
    let it := splitSp line
    match it[0]?, it[1]? with
    | some i0, some i1 =>
      let c := i0
      let d := i1
      let cls := addCls (addCls st.classes c) d
      .ok { st with classes := cls,
                    nf1 := st.nf1 ++ [(idx cls c, idx cls d)] }
    | _, _ => .error raw

/-- The parsing loop of `load_data` from a given state: the first raised
error aborts the parse, as an uncaught Python exception would. -/
def parseAll (st : ParseState) : List Str → Except Str ParseState
  | [] => .ok st
  | l :: ls =>
    match parseLine st l with
    | .error m => .error m
    | .ok st' => parseAll st' ls

/-- The whole of `load_data` on the file's lines, from the empty state. -/
def loadData (lines : List Str) : Except Str ParseState :=
  parseAll initState lines

/-! The batch sampler `Generator`, with `main`'s wiring around it. -/

/-- The five finalized axiom arrays `data['nf1']`, …, `data['disjoint']`
that `load_data` returns to `main`. -/
structure DataArrays where
  nf1 : List (ℕ × ℕ)
  nf2 : List (ℕ × ℕ × ℕ)
  nf3 : List (ℕ × ℕ × ℕ)
  nf4 : List (ℕ × ℕ × ℕ)
  disjoint : List (ℕ × ℕ × ℕ)
deriving DecidableEq, Repr

/-- `nb_data` in `main`: the largest row count among the five groups,
computed as a running `max` starting from `0`. -/
def maxCount (d : DataArrays) : ℕ :=
  max d.disjoint.length
    (max d.nf4.length (max d.nf3.length (max d.nf2.length (max d.nf1.length 0))))

/-- The `steps = int(math.ceil(nb_data / (1.0 * batch_size)))` of `main`,
as the exact ceiling division on naturals (the source's float detour is
exact for the argument sizes that fit a double). -/
def stepsOf (d : DataArrays) (batchSize : ℕ) : ℕ :=
  (maxCount d + batchSize - 1) / batchSize

/-- `np.random.choice(n, k)`: `k` indices below `n` drawn from a seed
oracle, or the `ValueError` numpy raises when `n = 0`. Reducing the
oracle's value modulo `n` keeps every index in range while any index
sequence stays realizable by some oracle. -/
def choice (n k : ℕ) (seed : ℕ → ℕ) : Except String (List ℕ) :=
  if n = 0 then .error "a must be greater than 0"
  else .ok ((List.range k).map fun i => seed i % n)

/-- Row gather `rows[indices]` of numpy fancy indexing. -/
def gather {α : Type} [Inhabited α] (rows : List α) (indices : List ℕ) : List α :=
  indices.map fun i => rows.getD i default

/-- One 5-tuple of batches plus the dummy label tensor, as
`Generator.next` returns it; each list's length is the batch's first
dimension. -/
structure Batch where
  nf1 : List (ℕ × ℕ)
  nf2 : List (ℕ × ℕ × ℕ)
  nf3 : List (ℕ × ℕ × ℕ)
  nf4 : List (ℕ × ℕ × ℕ)
  dis : List (ℕ × ℕ × ℕ)
  labels : List ℝ

/-- The sampler state of `Generator.__init__`: the data arrays, the
`batch_size` and `steps` parameters, and the `start` position. -/
structure Generator where
  data : DataArrays
  batchSize : ℕ
  steps : ℕ
  start : ℕ
deriving DecidableEq, Repr

/-- The generator exactly as `main` constructs it:
`Generator(data, steps=steps)` passes no batch size, so the Python
default `batch_size=128` applies whatever `--batch-size` was given. -/
def mainGenerator (data : DataArrays) (steps : ℕ) : Generator :=
  ⟨data, 128, steps, 0⟩

/-- `Generator.next`: before `steps` calls, five independent draws and
gathers plus a zero label column, and `start` advances; at `start =
steps` the source calls `reset()` and raises `StopIteration`, modelled
as `Option.none` with `start` back at `0`. A failing draw propagates as
the error of the first empty group, as Python's exception would. -/
def Generator.next (g : Generator) (seed : ℕ → ℕ → ℕ) :
    Except String (Option Batch × Generator) :=
  if g.start < g.steps then
    match choice g.data.nf1.length g.batchSize (seed 0) with
    | .error m => .error m
    | .ok i1 =>
      match choice g.data.nf2.length g.batchSize (seed 1) with
      | .error m => .error m
      | .ok i2 =>
        match choice g.data.nf3.length g.batchSize (seed 2) with
        | .error m => .error m
        | .ok i3 =>
          match choice g.data.nf4.length g.batchSize (seed 3) with
          | .error m => .error m
          | .ok i4 =>
            match choice g.data.disjoint.length g.batchSize (seed 4) with
            | .error m => .error m
            | .ok i5 =>
              .ok (some ⟨gather g.data.nf1 i1, gather g.data.nf2 i2,
                     gather g.data.nf3 i3, gather g.data.nf4 i4,
                     gather g.data.disjoint i5,
                     List.replicate g.batchSize (0 : ℝ)⟩,
                   { g with start := g.start + 1 })
  else
    .ok (none, { g with start := 0 })

/-- Driving the sampler as `main`'s `for batch_data in generator` loop
does: collect batches until the sampler signals exhaustion, with a fuel
bound on the number of `next` calls. -/
def Generator.runFor (seed : ℕ → ℕ → ℕ → ℕ) :
    ℕ → Generator → Except String (List Batch × Generator)
  | 0, g => .ok ([], g)
  | fuel + 1, g =>
    match g.next (seed g.start) with
    | .error m => .error m
    | .ok (none, g') => .ok ([], g')
    | .ok (some b, g') =>
      match Generator.runFor seed fuel g' with
      | .error m => .error m
      | .ok (bs, g'') => .ok (b :: bs, g'')

/-! Concrete inputs used by the closed evaluation theorems and by the
witnesses of the quantified theorems. -/

/-- A one-dimensional ball embedding with center `1` and radius `1`. -/
noncomputable def ballOne : Fin 2 → ℝ := fun _ => 1

/-- NF2 row input C: center `1`, radius coordinate `1`. -/
noncomputable def cBug : Fin 2 → ℝ := ![1, 1]

/-- NF2 row input D: center `1`, radius coordinate `2`. -/
noncomputable def dBug : Fin 2 → ℝ := ![1, 2]

/-- NF2 row input E: center `1`, radius coordinate `0`. -/
noncomputable def eBug : Fin 2 → ℝ := ![1, 0]

/-- Disjointness input: center `0`, radius `1`. -/
noncomputable def cSep : Fin 2 → ℝ := ![0, 1]

/-- Disjointness input: center `3`, radius `1`; separated from `cSep` by
more than the radii plus the margin. -/
noncomputable def dSep : Fin 2 → ℝ := ![3, 1]

/-- Disjointness input: center `39/20`, radius `1`; overlaps `cSep`
(distance `1.95 < 2`) yet within the margin of touching. -/
noncomputable def dOv : Fin 2 → ℝ := ![39 / 20, 1]

/-- A data set with one row per group. -/
def data0 : DataArrays := ⟨[(0, 1)], [(0, 1, 2)], [(0, 0, 1)], [(0, 0, 1)], [(0, 1, 2)]⟩

/-- A constant random oracle for one `next` call. -/
def seed0 : ℕ → ℕ → ℕ := fun _ _ => 0

/-- A data set whose largest group (`nf1`) has three rows. -/
def dataW : DataArrays :=
  ⟨[(0, 1), (1, 2), (2, 3)], [(0, 1, 2)], [(0, 0, 1)], [(0, 0, 1)], [(0, 1, 2)]⟩

/-- A constant random oracle for a whole pass. -/
def seedW : ℕ → ℕ → ℕ → ℕ := fun _ _ _ => 0

/-- A generator over data whose `nf2` group is empty, one step pending. -/
def gEmpty : Generator :=
  ⟨⟨[(0, 1)], [], [(0, 0, 1)], [(0, 0, 1)], [(0, 1, 2)]⟩, 128, 1, 0⟩

/-- A constant class-embedding table in one dimension. -/
noncomputable def embZ : ℕ → Fin 2 → ℝ := fun _ _ => 0

/-- An intersection-to-bottom axiom line, in the file's raw form. -/
def rawInter : Str := "SubClassOf(ObjectIntersectionOf(A B) owl:Nothing)".toList

/-- The state `parseLine` produces from the empty state on `rawInter`. -/
def stInter : ParseState :=
  ⟨["A".toList, "B".toList, "owl:Nothing".toList], [], [], [], [], [], [(0, 1, 2)]⟩

/-- A one-line input file holding one plain subsumption axiom. -/
def linesW : List Str := ["SubClassOf(A B)".toList]

/-- The state `load_data` produces on `linesW`. -/
def stW : ParseState := ⟨["A".toList, "B".toList], [], [(0, 1)], [], [], [], []⟩

deriving instance DecidableEq for Except

/-! Supporting lemmas shared by the claim theorems. -/

theorem relu_of_nonpos {x : ℝ} (h : x ≤ 0) : relu x = 0 := max_eq_right h

theorem relu_pos {x : ℝ} (h : 0 < x) : 0 < relu x :=
  lt_of_lt_of_le h (le_max_left x 0)

theorem enorm_zero {n : ℕ} : enorm (0 : Fin n → ℝ) = 0 := by
  simp [enorm]

theorem enorm_sub_comm {n : ℕ} (x y : Fin n → ℝ) :
    enorm (x - y) = enorm (y - x) := by
  unfold enorm
  congr 1
  apply Finset.sum_congr rfl
  intro i _
  simp [Pi.sub_apply]
  ring

theorem enorm_one (x : Fin 1 → ℝ) : enorm x = |x 0| := by
  unfold enorm
  rw [Fin.sum_univ_one]
  exact Real.sqrt_sq_eq_abs _

theorem enorm_center_sub (v w : Fin 2 → ℝ) :
    enorm (center v - center w) = |v 0 - w 0| := by
  rw [enorm_one]
  rfl

theorem enorm_center (v : Fin 2 → ℝ) : enorm (center v) = |v 0| := by
  rw [enorm_one]
  rfl

theorem radius_two (v : Fin 2 → ℝ) : radius v = v 1 := rfl

/-! The claim theorems. -/

/-- C5: on two balls with identical centers and radius coordinates of
equal magnitude, the containment primitive's core distance term
`relu(‖center_c − center_d‖ + rc − rd)` is exactly `0`, the loss reduces
to the regularization term alone, and that term is `0` exactly when both
centers have norm `1`. -/
theorem loss_identical_balls {n : ℕ} (c d : Fin (n + 1) → ℝ)
    (hc : center c = center d) (hr : |radius c| = |radius d|) :
    ELModel.dstTerm c d = 0 ∧
    ELModel.loss c d = ELModel.regTerm c d ∧
    (ELModel.regTerm c d = 0 ↔ enorm (center c) = 1 ∧ enorm (center d) = 1) := by
  have hdst : ELModel.dstTerm c d = 0 := by
    unfold ELModel.dstTerm
    rw [hc, hr, sub_self, enorm_zero]
    simp [relu]
  refine ⟨hdst, by unfold ELModel.loss; rw [hdst]; ring, ?_⟩
  unfold ELModel.regTerm
  constructor
  · intro h
    have h1 : |enorm (center c) - 1| = 0 ∧ |enorm (center d) - 1| = 0 := by
      constructor <;>
        nlinarith [abs_nonneg (enorm (center c) - 1),
          abs_nonneg (enorm (center d) - 1)]
    exact ⟨by linarith [abs_eq_zero.mp h1.1], by linarith [abs_eq_zero.mp h1.2]⟩
  · rintro ⟨h1, h2⟩
    rw [h1, h2]
    simp

/-- Witness for C5 at the concrete ball `(center 1, radius 1)`. -/
theorem loss_identical_balls_witness :
    ELModel.dstTerm ballOne ballOne = 0 ∧
    ELModel.loss ballOne ballOne = ELModel.regTerm ballOne ballOne ∧
    (ELModel.regTerm ballOne ballOne = 0 ↔
      enorm (center ballOne) = 1 ∧ enorm (center ballOne) = 1) :=
  loss_identical_balls ballOne ballOne rfl rfl

/-- C6 (amended): the disjointness overlap penalty is `0` whenever
`dist(c,d) ≥ rc + rd + margin`, and strictly positive whenever
`dist(c,d) < rc + rd − margin` (the original claim's strictness bound
`dist(c,d) < rc + rd` fails inside the margin, see the
counterexample). -/
theorem dis_penalty_amended {n : ℕ} (c d : Fin (n + 1) → ℝ) :
    (|radius c| + |radius d| + ELModel.disMargin ≤ enorm (center d - center c) →
      ELModel.disPenalty c d = 0) ∧
    (enorm (center d - center c) < |radius c| + |radius d| - ELModel.disMargin →
      0 < ELModel.disPenalty c d) := by
  have hmar : (0 : ℝ) ≤ ELModel.disMargin := by
    unfold ELModel.disMargin
    norm_num
  constructor
  · intro h
    unfold ELModel.disPenalty
    exact relu_of_nonpos (by linarith)
  · intro h
    unfold ELModel.disPenalty
    exact relu_pos (by linarith)

/-- Witness for C6 (amended) at the separated balls `cSep`, `dSep`:
their distance `3` exceeds `1 + 1 + 0.1`, so the penalty is `0`. -/
theorem dis_penalty_amended_witness : ELModel.disPenalty cSep dSep = 0 :=
  (dis_penalty_amended cSep dSep).1 (by
    rw [enorm_center_sub]
    rw [radius_two, radius_two]
    unfold ELModel.disMargin cSep dSep
    norm_num)

/-- Counterexample to C6 as stated: at `cSep` (center 0, radius 1) and
`dOv` (center 1.95, radius 1) the center distance `1.95` is strictly
below `rc + rd = 2`, yet the overlap penalty is `0`, not strictly
positive: the claim's strict-positivity condition ignores the `0.1`
margin. -/
theorem dis_penalty_not_strict_at_gap :
    enorm (center dOv - center cSep) < |radius cSep| + |radius dOv| ∧
    ELModel.disPenalty cSep dOv = 0 := by
  have habs : |(39 : ℝ) / 20| = 39 / 20 := abs_of_nonneg (by norm_num)
  constructor
  · rw [enorm_center_sub, radius_two, radius_two]
    unfold cSep dOv
    norm_num [habs]
  · unfold ELModel.disPenalty
    rw [enorm_center_sub, radius_two, radius_two]
    apply relu_of_nonpos
    unfold ELModel.disMargin cSep dOv
    norm_num [habs]

/-- C7: the NF4 loss shifts C's embedding by the negated zero-padded
relation vector (radius coordinate unchanged, center translated by
`−r`), and equals the one-sided penalty
`relu(dist(shifted_c, d) − (r_shifted_c + rd))` plus unit-norm
regularization on shifted-C's and D's centers; no second containment
direction appears. -/
theorem nf4_one_sided_containment {n : ℕ} (r : Fin n → ℝ) (c d : Fin (n + 1) → ℝ) :
    radius (c - padRel r) = radius c ∧
    center (c - padRel r) = center c - r ∧
    ELModel.nf4_loss r c d = ELModel.nf4_loss_specWords r c d := by
  refine ⟨?_, ?_, ?_⟩
  · unfold radius padRel
    simp [Pi.sub_apply, Fin.snoc_last]
  · funext i
    unfold center padRel
    simp [Pi.sub_apply, Fin.snoc_castSucc]
  · simp only [ELModel.nf4_loss, ELModel.nf4_loss_specWords]
    rw [enorm_sub_comm]

/-- C1 (the code bug, evaluated): on the NF2 row with embeddings
`c = (1, 1)`, `d = (1, 2)`, `e = (1, 0)` the source's `nf2_loss` is `0`,
because its `re` is recomputed from `d`'s radius column, while the
specification's formula (with `re` the absolute radius of `e`) gives
`relu(max(1, 2) − 0) = 2`. -/
theorem nf2_re_uses_d_radius :
    ELModel.nf2_loss cBug dBug eBug = 0 ∧
    ELModel.nf2_loss_specWords cBug dBug eBug = 2 := by
  have h1 : |radius cBug| = 1 := by
    rw [radius_two]; simp [cBug]
  have h2 : |radius dBug| = 2 := by
    rw [radius_two]; simp [dBug]
  have h3 : |radius eBug| = 0 := by
    rw [radius_two]; simp [eBug]
  have h4 : enorm (center dBug - center cBug) = 0 := by
    rw [enorm_center_sub]; simp [cBug, dBug]
  have h5 : enorm (center eBug - center cBug) = 0 := by
    rw [enorm_center_sub]; simp [cBug, eBug]
  have h6 : enorm (center eBug - center dBug) = 0 := by
    rw [enorm_center_sub]; simp [dBug, eBug]
  have h7 : enorm (center cBug) = 1 := by
    rw [enorm_center]; simp [cBug]
  have h8 : enorm (center dBug) = 1 := by
    rw [enorm_center]; simp [dBug]
  have h9 : enorm (center eBug) = 1 := by
    rw [enorm_center]; simp [eBug]
  have hm : max (1 : ℝ) 2 = 2 := max_eq_right (by norm_num)
  constructor
  · simp only [ELModel.nf2_loss]
    rw [h1, h2, h4, h5, h6, h7, h8, h9, hm]
    rw [relu_of_nonpos (by norm_num), relu_of_nonpos (by norm_num),
      relu_of_nonpos (by norm_num), relu_of_nonpos (by norm_num)]
    norm_num
  · simp only [ELModel.nf2_loss_specWords]
    rw [h1, h2, h3, h4, h5, h6, h7, h8, h9, hm]
    rw [relu_of_nonpos (by norm_num), relu_of_nonpos (by norm_num),
      relu_of_nonpos (by norm_num)]
    unfold relu
    norm_num

theorem choice_ok (n k : ℕ) (s : ℕ → ℕ) (h : n ≠ 0) :
    choice n k s = .ok ((List.range k).map fun i => s i % n) := by
  simp [choice, h]

/-- C3 (the code bug, evaluated): `main` computes `steps` from the CLI
batch size (here `256`, the default) but constructs
`Generator(data, steps=steps)` without passing it, so every produced
axiom array and the label tensor have first dimension `128`, the Python
default — not the configured `256`. -/
theorem batch_size_is_python_default :
    ((mainGenerator data0 (stepsOf data0 256)).next seed0).map
      (fun p => p.1.map fun b => (b.nf1.length, b.nf2.length, b.nf3.length,
        b.nf4.length, b.dis.length, b.labels.length)) =
      .ok (some (128, 128, 128, 128, 128, 128)) ∧ (128 : ℕ) ≠ 256 := by
  constructor
  · rfl
  · decide

/-- C9: with a step still pending, if any of the five axiom groups is
empty, `Generator.next` raises (numpy's `ValueError` from
`np.random.choice(0, k)`) instead of yielding a batch. -/
theorem next_error_on_empty_group (g : Generator) (seed : ℕ → ℕ → ℕ)
    (hrun : g.start < g.steps)
    (hempty : g.data.nf1 = [] ∨ g.data.nf2 = [] ∨ g.data.nf3 = [] ∨
      g.data.nf4 = [] ∨ g.data.disjoint = []) :
    ∃ msg, g.next seed = .error msg := by
  unfold Generator.next
  rw [if_pos hrun]
  rcases hempty with h|h|h|h|h <;> rw [h]
  · exact ⟨_, rfl⟩
  · rcases hc1 : choice g.data.nf1.length g.batchSize (seed 0) with m1 | i1 <;>
      exact ⟨_, rfl⟩
  · rcases hc1 : choice g.data.nf1.length g.batchSize (seed 0) with m1 | i1 <;>
    rcases hc2 : choice g.data.nf2.length g.batchSize (seed 1) with m2 | i2 <;>
      exact ⟨_, rfl⟩
  · rcases hc1 : choice g.data.nf1.length g.batchSize (seed 0) with m1 | i1 <;>
    rcases hc2 : choice g.data.nf2.length g.batchSize (seed 1) with m2 | i2 <;>
    rcases hc3 : choice g.data.nf3.length g.batchSize (seed 2) with m3 | i3 <;>
      exact ⟨_, rfl⟩
  · rcases hc1 : choice g.data.nf1.length g.batchSize (seed 0) with m1 | i1 <;>
    rcases hc2 : choice g.data.nf2.length g.batchSize (seed 1) with m2 | i2 <;>
    rcases hc3 : choice g.data.nf3.length g.batchSize (seed 2) with m3 | i3 <;>
    rcases hc4 : choice g.data.nf4.length g.batchSize (seed 3) with m4 | i4 <;>
      exact ⟨_, rfl⟩

/-- Witness for C9: the generator over data with an empty `nf2` group
fails its first `next` call. -/
theorem next_error_on_empty_group_witness :
    ∃ msg, gEmpty.next seed0 = .error msg :=
  next_error_on_empty_group gEmpty seed0 (by decide) (Or.inr (Or.inl rfl))

theorem next_produces (g : Generator) (seed : ℕ → ℕ → ℕ)
    (hlt : g.start < g.steps)
    (h1 : g.data.nf1 ≠ []) (h2 : g.data.nf2 ≠ []) (h3 : g.data.nf3 ≠ [])
    (h4 : g.data.nf4 ≠ []) (h5 : g.data.disjoint ≠ []) :
    ∃ b, g.next seed = .ok (some b, { g with start := g.start + 1 }) := by
  have l1 : g.data.nf1.length ≠ 0 := fun hh => h1 (List.length_eq_zero.mp hh)
  have l2 : g.data.nf2.length ≠ 0 := fun hh => h2 (List.length_eq_zero.mp hh)
  have l3 : g.data.nf3.length ≠ 0 := fun hh => h3 (List.length_eq_zero.mp hh)
  have l4 : g.data.nf4.length ≠ 0 := fun hh => h4 (List.length_eq_zero.mp hh)
  have l5 : g.data.disjoint.length ≠ 0 := fun hh => h5 (List.length_eq_zero.mp hh)
  unfold Generator.next
  rw [if_pos hlt, choice_ok _ _ _ l1, choice_ok _ _ _ l2, choice_ok _ _ _ l3,
    choice_ok _ _ _ l4, choice_ok _ _ _ l5]
  exact ⟨_, rfl⟩

theorem runFor_spec (seed : ℕ → ℕ → ℕ → ℕ) :
    ∀ (fuel : ℕ) (g : Generator),
      g.data.nf1 ≠ [] → g.data.nf2 ≠ [] → g.data.nf3 ≠ [] → g.data.nf4 ≠ [] →
      g.data.disjoint ≠ [] → g.start ≤ g.steps → g.steps - g.start < fuel →
      ∃ bs g', Generator.runFor seed fuel g = .ok (bs, g') ∧
        bs.length = g.steps - g.start ∧ g'.start = 0 := by
  intro fuel
  induction fuel with
  | zero => intro g _ _ _ _ _ _ hf; omega
  | succ fuel ih =>
    intro g h1 h2 h3 h4 h5 hle hf
    by_cases hlt : g.start < g.steps
    · obtain ⟨b, hnext⟩ := next_produces g (seed g.start) hlt h1 h2 h3 h4 h5
      obtain ⟨bs, g', hrun, hlen, hstart⟩ :=
        ih { g with start := g.start + 1 } h1 h2 h3 h4 h5 hlt (by dsimp only; omega)
      refine ⟨b :: bs, g', ?_, ?_, hstart⟩
      · unfold Generator.runFor
        rw [hnext]
        dsimp only
        rw [hrun]
      · simp only [List.length_cons, hlen]
        omega
    · have hnext : g.next (seed g.start) = .ok (none, { g with start := 0 }) := by
        unfold Generator.next
        rw [if_neg hlt]
      refine ⟨[], { g with start := 0 }, ?_, by simp only [List.length_nil]; omega, rfl⟩
      unfold Generator.runFor
      rw [hnext]

/-- C4: over data with every group non-empty, a full pass of the
sampler `main` builds yields exactly `stepsOf d bs` batches and then
signals exhaustion with its position reset to `0`, where
`stepsOf d bs` is the ceiling of `maxCount d / bs` (characterized by the
two inequalities in the conclusion, `bs` being the configured batch
size). -/
theorem generator_exact_steps (d : DataArrays) (bs : ℕ) (seed : ℕ → ℕ → ℕ → ℕ)
    (fuel : ℕ) (h1 : d.nf1 ≠ []) (h2 : d.nf2 ≠ []) (h3 : d.nf3 ≠ [])
    (h4 : d.nf4 ≠ []) (h5 : d.disjoint ≠ []) (hbs : 0 < bs)
    (hfuel : stepsOf d bs < fuel) :
    (∃ batches g', Generator.runFor seed fuel (mainGenerator d (stepsOf d bs)) =
        .ok (batches, g') ∧ batches.length = stepsOf d bs ∧ g'.start = 0) ∧
    maxCount d ≤ stepsOf d bs * bs ∧ stepsOf d bs * bs < maxCount d + bs := by
  constructor
  · have hs := runFor_spec seed fuel (mainGenerator d (stepsOf d bs)) h1 h2 h3 h4 h5
      (Nat.zero_le _) (by simpa [mainGenerator] using hfuel)
    simpa [mainGenerator] using hs
  · unfold stepsOf
    rw [mul_comm]
    have hdm := Nat.div_add_mod (maxCount d + bs - 1) bs
    have hmod := Nat.mod_lt (maxCount d + bs - 1) hbs
    generalize hq : bs * ((maxCount d + bs - 1) / bs) = t at hdm ⊢
    generalize hr : (maxCount d + bs - 1) % bs = r at hdm hmod
    omega

/-- Witness for C4: three `nf1` rows, batch size `2`, so two batches per
pass. -/
theorem generator_exact_steps_witness :
    (∃ batches g', Generator.runFor seedW 3 (mainGenerator dataW (stepsOf dataW 2)) =
        .ok (batches, g') ∧ batches.length = stepsOf dataW 2 ∧ g'.start = 0) ∧
    maxCount dataW ≤ stepsOf dataW 2 * 2 ∧ stepsOf dataW 2 * 2 < maxCount dataW + 2 :=
  generator_exact_steps dataW 2 seedW 3 (by decide) (by decide) (by decide)
    (by decide) (by decide) (by decide) (by decide)

/-- C10: the disjointness loss reads only columns 0 and 1 of its batch;
two batches that agree on those two columns give identical per-row
losses whatever stands in column 2 (the bottom concept's index). -/
theorem dis_loss_ignores_third_column {n : ℕ} (emb : ℕ → Fin (n + 1) → ℝ)
    (b₁ b₂ : List (ℕ × ℕ × ℕ))
    (h : b₁.map (fun row => (row.1, row.2.1)) = b₂.map (fun row => (row.1, row.2.1))) :
    ELModel.dis_loss_batch emb b₁ = ELModel.dis_loss_batch emb b₂ := by
  unfold ELModel.dis_loss_batch ELModel.dis_loss_row
  have hsplit : ∀ b : List (ℕ × ℕ × ℕ),
      b.map (fun row => ELModel.dis_loss (emb row.1) (emb row.2.1)) =
        (b.map (fun row => (row.1, row.2.1))).map
          (fun p => ELModel.dis_loss (emb p.1) (emb p.2)) := by
    intro b
    rw [List.map_map]
    rfl
  rw [hsplit, hsplit, h]

/-- Witness for C10: two one-row batches differing only in column 2. -/
theorem dis_loss_ignores_third_column_witness :
    ELModel.dis_loss_batch embZ [(0, 1, 5)] = ELModel.dis_loss_batch embZ [(0, 1, 7)] :=
  dis_loss_ignores_third_column embZ [(0, 1, 5)] [(0, 1, 7)] rfl

/-- C2: a successfully parsed line whose stripped content is an
intersection axiom appends exactly one triple to the disjointness group
and leaves NF2 unchanged when the right-hand-side token is
`owl:Nothing`, and appends exactly one triple to NF2 leaving
disjointness unchanged otherwise. -/
theorem intersection_bottom_routing (st st' : ParseState) (raw : Str)
    (hok : parseLine st raw = .ok st')
    (hpre : interTag.isPrefixOf (((pyStrip raw).drop 11).dropLast) = true) :
    ∃ t2, (splitSp (((pyStrip raw).drop 11).dropLast))[2]? = some t2 ∧
      ((t2 = bottom →
          (∃ tr, st'.disjoint = st.disjoint ++ [tr]) ∧ st'.nf2 = st.nf2) ∧
       (t2 ≠ bottom →
          (∃ tr, st'.nf2 = st.nf2 ++ [tr]) ∧ st'.disjoint = st.disjoint)) := by
  have hne : (((pyStrip raw).drop 11).dropLast).isEmpty = false := by
    cases hl : ((pyStrip raw).drop 11).dropLast with
    | nil => rw [hl] at hpre; simp [interTag] at hpre
    | cons a l => simp
  simp only [parseLine, hne, hpre, Bool.false_eq_true, if_false, if_true] at hok
  rcases h0 : (splitSp (((pyStrip raw).drop 11).dropLast))[0]? with _ | i0
  · rw [h0] at hok
    simp at hok
  rcases h1 : (splitSp (((pyStrip raw).drop 11).dropLast))[1]? with _ | i1
  · rw [h0, h1] at hok
    simp at hok
  rcases h2 : (splitSp (((pyStrip raw).drop 11).dropLast))[2]? with _ | i2
  · rw [h0, h1, h2] at hok
    simp at hok
  rw [h0, h1, h2] at hok
  dsimp only at hok
  by_cases hb : i2 = bottom
  · rw [if_pos hb] at hok
    injection hok with h
    refine ⟨i2, rfl, fun _ => ?_, fun hnb => absurd hb hnb⟩
    rw [← h]
    exact ⟨⟨_, rfl⟩, rfl⟩
  · rw [if_neg hb] at hok
    injection hok with h
    refine ⟨i2, rfl, fun hbb => absurd hbb hb, fun _ => ?_⟩
    rw [← h]
    exact ⟨⟨_, rfl⟩, rfl⟩

/-- Witness for C2: the bottom-routed line `rawInter` parsed from the
empty state. -/
theorem intersection_bottom_routing_witness :
    ∃ t2, (splitSp (((pyStrip rawInter).drop 11).dropLast))[2]? = some t2 ∧
      ((t2 = bottom →
          (∃ tr, stInter.disjoint = initState.disjoint ++ [tr]) ∧
            stInter.nf2 = initState.nf2) ∧
       (t2 ≠ bottom →
          (∃ tr, stInter.nf2 = initState.nf2 ++ [tr]) ∧
            stInter.disjoint = initState.disjoint)) :=
  intersection_bottom_routing initState stInter rawInter (by decide) (by decide)

theorem addCls_nodup (cs : List Str) (nm : Str) (h : cs.Nodup) :
    (addCls cs nm).Nodup := by
  unfold addCls
  split
  · exact h
  · rename_i hmem
    simp [List.nodup_append, h, hmem]

theorem parseLine_nodup (st st' : ParseState) (raw : Str)
    (h : parseLine st raw = .ok st')
    (hc : st.classes.Nodup) (hr : st.relations.Nodup) :
    st'.classes.Nodup ∧ st'.relations.Nodup := by
  simp only [parseLine] at h
  split at h
  · cases h
    exact ⟨hc, hr⟩
  · split at h
    · split at h
      · split at h <;>
          (cases h; exact ⟨addCls_nodup _ _ (addCls_nodup _ _ (addCls_nodup _ _ hc)), hr⟩)
      · cases h
    · split at h
      · split at h
        · cases h
          exact ⟨addCls_nodup _ _ (addCls_nodup _ _ hc), addCls_nodup _ _ hr⟩
        · cases h
      · split at h
        · split at h
          · cases h
            exact ⟨addCls_nodup _ _ (addCls_nodup _ _ hc), addCls_nodup _ _ hr⟩
          · cases h
        · split at h
          · cases h
            exact ⟨addCls_nodup _ _ (addCls_nodup _ _ hc), hr⟩
          · cases h

theorem parseAll_nodup : ∀ (lines : List Str) (st st' : ParseState),
    parseAll st lines = .ok st' → st.classes.Nodup → st.relations.Nodup →
    st'.classes.Nodup ∧ st'.relations.Nodup := by
  intro lines
  induction lines with
  | nil =>
    intro st st' h hc hr
    cases h
    exact ⟨hc, hr⟩
  | cons l ls ih =>
    intro st st' h hc hr
    unfold parseAll at h
    rcases hp : parseLine st l with m | st₁
    · rw [hp] at h
      cases h
    · rw [hp] at h
      obtain ⟨hc₁, hr₁⟩ := parseLine_nodup st st₁ l hp hc hr
      exact ih st₁ st' h hc₁ hr₁

theorem idx_lt_of_mem (cs : List Str) (nm : Str) (h : nm ∈ cs) :
    idx cs nm < cs.length := by
  induction cs with
  | nil => cases h
  | cons c rest ih =>
    unfold idx
    by_cases hc : c = nm
    · simp [hc]
    · simp only [if_neg hc, List.length_cons]
      have hmem : nm ∈ rest := by
        rcases List.mem_cons.mp h with h1 | h1
        · exact absurd h1.symm hc
        · exact h1
      exact Nat.succ_lt_succ (ih hmem)

theorem idx_inj (cs : List Str) (m nm : Str) (hm : m ∈ cs) (hn : nm ∈ cs)
    (h : idx cs m = idx cs nm) : m = nm := by
  induction cs with
  | nil => cases hm
  | cons c rest ih =>
    unfold idx at h
    by_cases h1 : c = m <;> by_cases h2 : c = nm
    · rw [← h1, ← h2]
    · rw [if_pos h1, if_neg h2] at h
      exact absurd h (by omega)
    · rw [if_neg h1, if_pos h2] at h
      exact absurd h (by omega)
    · rw [if_neg h1, if_neg h2] at h
      have hm2 : m ∈ rest := by
        rcases List.mem_cons.mp hm with hx | hx
        · exact absurd hx.symm h1
        · exact hx
      have hn2 : nm ∈ rest := by
        rcases List.mem_cons.mp hn with hx | hx
        · exact absurd hx.symm h2
        · exact hx
      exact ih hm2 hn2 (by omega)

theorem idx_surj (cs : List Str) : cs.Nodup →
    ∀ k, k < cs.length → ∃ nm ∈ cs, idx cs nm = k := by
  induction cs with
  | nil =>
    intro _ k hk
    simp at hk
  | cons c rest ih =>
    intro hnd k hk
    obtain ⟨hnotmem, hndrest⟩ := List.nodup_cons.mp hnd
    cases k with
    | zero =>
      refine ⟨c, List.mem_cons_self c rest, ?_⟩
      unfold idx
      rw [if_pos rfl]
    | succ k =>
      obtain ⟨nm, hmem, hidx⟩ := ih hndrest k (by simpa using hk)
      have hc : c ≠ nm := fun he => hnotmem (he ▸ hmem)
      refine ⟨nm, List.mem_cons_of_mem c hmem, ?_⟩
      unfold idx
      rw [if_neg hc, hidx]

/-- C8: any successful parse yields duplicate-free class and relation
name lists, so each identifier holds a unique index, the indices are
each strictly below the respective count and jointly cover the whole of
`[0, count)`, and — the embedding being a pure function of the line
list — two runs on the same lines agree. -/
theorem load_data_index_assignment (lines : List Str) (st : ParseState)
    (hok : loadData lines = .ok st) :
    st.classes.Nodup ∧ st.relations.Nodup ∧
    (∀ nm ∈ st.classes, idx st.classes nm < st.classes.length) ∧
    (∀ m ∈ st.classes, ∀ nm ∈ st.classes,
      idx st.classes m = idx st.classes nm → m = nm) ∧
    (∀ k, k < st.classes.length → ∃ nm ∈ st.classes, idx st.classes nm = k) ∧
    (∀ nm ∈ st.relations, idx st.relations nm < st.relations.length) ∧
    (∀ m ∈ st.relations, ∀ nm ∈ st.relations,
      idx st.relations m = idx st.relations nm → m = nm) ∧
    (∀ k, k < st.relations.length → ∃ nm ∈ st.relations, idx st.relations nm = k) ∧
    (∀ lines₂, lines₂ = lines → loadData lines₂ = loadData lines) := by
  obtain ⟨hc, hr⟩ := parseAll_nodup lines initState st hok
    (by simp [initState]) (by simp [initState])
  refine ⟨hc, hr, ?_, ?_, ?_, ?_, ?_, ?_, ?_⟩
  · intro nm hm
    exact idx_lt_of_mem _ nm hm
  · intro m hm nm hn h
    exact idx_inj _ m nm hm hn h
  · exact idx_surj _ hc
  · intro nm hm
    exact idx_lt_of_mem _ nm hm
  · intro m hm nm hn h
    exact idx_inj _ m nm hm hn h
  · exact idx_surj _ hr
  · intro l₂ he
    rw [he]

/-- Witness for C8 on the one-line file `linesW`. -/
theorem load_data_index_assignment_witness :
    stW.classes.Nodup ∧ stW.relations.Nodup ∧
    (∀ nm ∈ stW.classes, idx stW.classes nm < stW.classes.length) ∧
    (∀ m ∈ stW.classes, ∀ nm ∈ stW.classes,
      idx stW.classes m = idx stW.classes nm → m = nm) ∧
    (∀ k, k < stW.classes.length → ∃ nm ∈ stW.classes, idx stW.classes nm = k) ∧
    (∀ nm ∈ stW.relations, idx stW.relations nm < stW.relations.length) ∧
    (∀ m ∈ stW.relations, ∀ nm ∈ stW.relations,
      idx stW.relations m = idx stW.relations nm → m = nm) ∧
    (∀ k, k < stW.relations.length → ∃ nm ∈ stW.relations, idx stW.relations nm = k) ∧
    (∀ lines₂, lines₂ = linesW → loadData lines₂ = loadData linesW) :=
  load_data_index_assignment linesW stW (by decide)

end ELEmbed
